import Mathlib

/-!
A formal model of the lazy data-streaming pipeline in
`python-generators-0x00` (`stream_users`, `stream_users_in_batches`,
`batch_processing`, `paginate_users` / `lazy_paginate`,
`stream_user_ages` / `calculate_average_age`, and `seed.insert_data`),
together with proofs of the behavioural properties claimed for it.

The backing table is modelled as the list of rows the `SELECT` query
returns, in query order.  Driver behaviour (`fetchone` / `fetchmany` /
`fetchall`) is modelled over a script of pull results so that
transport/query errors can be injected at any point, and each
generator run is modelled as a trace recording what was yielded,
whether an exception escaped to the caller, whether a driver error
occurred inside, and how many connection opens/closes happened.
A connection that was successfully opened is modelled as reporting
`is_connected() == True` in the `finally` blocks, so the guarded
`connection.close()` calls there do run.
-/

namespace PyGen

/-- A row of the `user_data` table (`user_id, name, email, age`);
`age` is `DECIMAL(5,2)`, modelled as a rational. -/
structure Record where
  user_id : String
  name : String
  email : String
  age : Rat
deriving DecidableEq

/-- The result of one `cursor.fetchone()` call against the driver: a
row, the end of the result set (`None`), or a raised
`mysql.connector.Error`. -/
inductive Pull
  | row (r : Record)
  | done
  | err
deriving DecidableEq

/-- Observable outcome of one full run of a generator-based stream:
what it yielded, whether an exception escaped to the caller, whether a
driver error occurred inside (the source prints it rather than
re-raising), and how many connection opens / closes happened. -/
structure RunTrace (α : Type) where
  yielded : List α
  raised : Bool
  errored : Bool
  opens : Nat
  closes : Nat
deriving DecidableEq

/-- The rows a pull script delivers before its first end-of-set or
error; a fault-free, fully consumed run yields exactly these. -/
def pulledRows : List Pull → List Record
  | Pull.row r :: ps => r :: pulledRows ps
  | _ => []

/-- The `while True: row = cursor.fetchone(); if row is None: break;
yield row` loop of `stream_users` (`0-stream_users.py`, lines 36-40),
run against a pull script.  `budget = some k` means the caller
abandons the generator (closes it, so `GeneratorExit` is thrown at the
suspended `yield`) after consuming `k` rows; `none` means it consumes
everything.  Returns the yielded rows and whether a driver error was
caught by the `except` clauses. -/
def rowLoop : List Pull → Option Nat → List Record × Bool
  | _, some 0 => ([], false)
  | [], _ => ([], false)
  | Pull.done :: _, _ => ([], false)
  | Pull.err :: _, _ => ([], true)
  | Pull.row r :: ps, budget =>
    let rest := rowLoop ps (budget.map (fun m => m - 1))
    (r :: rest.1, rest.2)

/-- One full run of the generator `stream_users` (`0-stream_users.py`).
`connectOk = false` models `mysql.connector.connect` raising: the
`except` clause catches and prints the error and the generator just
returns (nothing was opened, so the `finally` block closes nothing).
`budget = some 0` models a generator object the caller never starts:
its body never runs at all.  Otherwise the body opens one connection,
runs the fetch loop, and the `finally` block closes the cursor and the
connection on every exit path — normal exhaustion, caught driver
error, or `GeneratorExit` on abandonment (which `except Exception`
does not catch).  Neither `except` clause re-raises, so no exception
ever escapes to the caller. -/
def stream_users_run (connectOk : Bool) (pulls : List Pull) (budget : Option Nat) :
    RunTrace Record :=
  if budget = some 0 then ⟨[], false, false, 0, 0⟩
  else if connectOk then
    let r := rowLoop pulls budget
    ⟨r.1, false, r.2, 1, 1⟩
  else ⟨[], false, true, 0, 0⟩

/-- Generator `stream_users()` over a table delivered by the driver without
faults: the rows yielded by a full, fault-free, fully consumed run of
the generator. -/
def stream_users (table : List Record) : List Record :=
  (stream_users_run true (table.map Pull.row) none).yielded

/-- Row collector behind `cursor.fetchmany`: take up to `n` rows from
the pull script, stopping early at the end of the result set; a driver
error while collecting raises (`none`), losing the partially collected
rows. -/
def fetchRows : Nat → List Pull → Option (List Record × List Pull)
  | 0, ps => some ([], ps)
  | _ + 1, [] => some ([], [])
  | _ + 1, Pull.done :: ps => some ([], Pull.done :: ps)
  | _ + 1, Pull.err :: _ => none
  | n + 1, Pull.row r :: ps =>
    match fetchRows n ps with
    | none => none
    | some (b, rest) => some (r :: b, rest)

/-- Call `cursor.fetchmany(n)` against a pull script.  mysql-connector
computes the number of rows to fetch as `size or self.arraysize` with
the default `arraysize = 1`, so a size of 0 falls back to fetching one
row per call. -/
def fetchmanyS (n : Nat) (ps : List Pull) : Option (List Record × List Pull) :=
  fetchRows (if n = 0 then 1 else n) ps

/-- The row collector consumes at least as many script entries as the
rows it returns. -/
theorem fetchRows_length {n : Nat} {ps rest : List Pull} {b : List Record}
    (h : fetchRows n ps = some (b, rest)) : rest.length + b.length ≤ ps.length := by
  induction n generalizing ps b rest with
  | zero =>
    simp only [fetchRows, Option.some.injEq, Prod.mk.injEq] at h
    obtain ⟨hb, hr⟩ := h
    subst hb
    subst hr
    simp
  | succ n ih =>
    cases ps with
    | nil =>
      simp only [fetchRows, Option.some.injEq, Prod.mk.injEq] at h
      obtain ⟨hb, hr⟩ := h
      subst hb
      subst hr
      simp
    | cons p ps' =>
      cases p with
      | done =>
        simp only [fetchRows, Option.some.injEq, Prod.mk.injEq] at h
        obtain ⟨hb, hr⟩ := h
        subst hb
        subst hr
        simp
      | err => simp [fetchRows] at h
      | row r =>
        simp only [fetchRows] at h
        cases hrec : fetchRows n ps' with
        | none => rw [hrec] at h; simp at h
        | some pr =>
          rw [hrec] at h
          obtain ⟨b', rest'⟩ := pr
          simp only [Option.some.injEq, Prod.mk.injEq] at h
          obtain ⟨hb, hr⟩ := h
          subst hr
          have := ih hrec
          subst hb
          simp only [List.length_cons]
          omega

/-- A `fetchmany` call consumes at least as many script entries as the
rows it returns. -/
theorem fetchmanyS_length {n : Nat} {ps rest : List Pull} {b : List Record}
    (h : fetchmanyS n ps = some (b, rest)) : rest.length + b.length ≤ ps.length := by
  unfold fetchmanyS at h
  exact fetchRows_length h

/-- The `while True: batch = cursor.fetchmany(batch_size); if not
batch: break; yield batch` loop of `stream_users_in_batches`
(`1-batch_processing.py`, lines 34-38), with an abandonment budget
counted in batches. -/
def batchLoop (n : Nat) (pulls : List Pull) (budget : Option Nat) :
    List (List Record) × Bool :=
  if budget = some 0 then ([], false)
  else
    match hf : fetchmanyS n pulls with
    | none => ([], true)
    | some ([], _) => ([], false)
    | some (b :: bs, rest) =>
      let r := batchLoop n rest (budget.map (fun m => m - 1))
      ((b :: bs) :: r.1, r.2)
termination_by pulls.length
decreasing_by
  have hlen := fetchmanyS_length hf
  simp only [List.length_cons] at hlen
  omega

/-- One full run of the generator `stream_users_in_batches`
(`1-batch_processing.py`, lines 14-48).  Same connection, error and
cleanup discipline as `stream_users_run`: the `finally` block releases
the cursor and connection on every exit path, and neither `except`
clause re-raises.  There is no validation of `batch_size` anywhere in
the body: the connection is opened and the query executed regardless
of its value. -/
def stream_users_in_batches_run (connectOk : Bool) (n : Nat) (pulls : List Pull)
    (budget : Option Nat) : RunTrace (List Record) :=
  if budget = some 0 then ⟨[], false, false, 0, 0⟩
  else if connectOk then
    let r := batchLoop n pulls budget
    ⟨r.1, false, r.2, 1, 1⟩
  else ⟨[], false, true, 0, 0⟩

/-- Generator `stream_users_in_batches(n)` over a table delivered without
faults: the batches yielded by a full, fault-free, fully consumed
run. -/
def stream_users_in_batches (n : Nat) (table : List Record) : List (List Record) :=
  (stream_users_in_batches_run true n (table.map Pull.row) none).yielded

/-- The filter predicate of `batch_processing` (`1-batch_processing.py`,
line 64): the user has age greater than 25. -/
def olderThan25 (u : Record) : Bool :=
  decide ((25 : Rat) < u.age)

/-- Generator `batch_processing(batch_size)` (`1-batch_processing.py`, lines
50-65): for each batch from `stream_users_in_batches(batch_size)`,
yield, in order, the users of that batch with `age > 25`. -/
def batch_processing (n : Nat) (table : List Record) : List Record :=
  ((stream_users_in_batches n table).map (fun b => b.filter olderThan25)).flatten

/-- Outcome of one `paginate_users` call (`2-lazy_paginate.py`): the
Python return value (`none` when an exception escapes instead of a
return), whether an exception escaped to the caller, and the
connection opens/closes the call performed. -/
structure PageRun where
  ret : Option (List Record)
  raised : Bool
  opens : Nat
  closes : Nat
deriving DecidableEq

/-- What the store does on one `paginate_users` call: the connection
attempt fails (`seed.connect_to_prodev` catches its own error and
returns `None`), the query raises, or the `LIMIT/OFFSET` query
returns rows. -/
inductive PageFetch
  | connFail
  | qErr
  | ok (rows : List Record)
deriving DecidableEq

/-- Function `paginate_users` (`2-lazy_paginate.py`, lines 24-53).  On
a failed connection it prints and returns `[]` — nothing was opened,
nothing raised (`seed.connect_to_prodev` swallows its own error and
returns `None`).  On a query error, however, the module has never
imported `mysql` (its only imports are `sys` and `seed`), so when the
interpreter evaluates the first handler, the class expression
`mysql.connector.Error` itself raises `NameError`; that `NameError`
replaces the original error, the later `except Exception` clause is
never consulted, the `finally` block closes the opened cursor and
connection, and the `NameError` then propagates to the caller — the
function does not return at all (`ret = none`, `raised = true`).  On
success it returns the fetched rows and closes its connection. -/
def paginate_users_run : PageFetch → PageRun
  | PageFetch.connFail => ⟨some [], false, 0, 0⟩
  | PageFetch.qErr => ⟨none, true, 1, 1⟩
  | PageFetch.ok rows => ⟨some rows, false, 1, 1⟩

/-- The fetch outcome one `paginate_users page_size offset` call sees
over table `t`: a connection failure at the offsets selected by
`connFailAt`, a query error at those selected by `qErrAt`, otherwise
the rows of the fault-free query `LIMIT p OFFSET off`, namely
`(t.drop off).take p`. -/
def pageFetchAt (t : List Record) (connFailAt qErrAt : Nat → Bool) (p off : Nat) :
    PageFetch :=
  if connFailAt off then PageFetch.connFail
  else if qErrAt off then PageFetch.qErr
  else PageFetch.ok ((t.drop off).take p)

/-- The `offset = 0; while True: page = paginate_users(page_size,
offset); if not page: break; yield page; offset += page_size` loop of
`lazy_paginate` (`2-lazy_paginate.py`, lines 56-72), run over table
`t` with faults injected at the offsets selected by the two
predicates.  Returns the pages yielded and whether an exception
escaped to the caller of `lazy_paginate`: the generator body has no
`try` of its own, so the `NameError` escaping a failed
`paginate_users` call passes through it unchanged, after the pages
already yielded. -/
def lazyPaginateRun (p : Nat) (t : List Record) (connFailAt qErrAt : Nat → Bool)
    (off : Nat) : List (List Record) × Bool :=
  match hp : (paginate_users_run (pageFetchAt t connFailAt qErrAt p off)).ret with
  | none => ([], true)
  | some [] => ([], false)
  | some (r :: rs) =>
    let rest := lazyPaginateRun p t connFailAt qErrAt (off + p)
    ((r :: rs) :: rest.1, rest.2)
termination_by t.length - off
decreasing_by
  by_cases hcf : connFailAt off
  · simp [pageFetchAt, paginate_users_run, hcf] at hp
  · by_cases hqf : qErrAt off
    · simp [pageFetchAt, paginate_users_run, hcf, hqf] at hp
    · simp only [pageFetchAt, paginate_users_run, hcf, hqf, if_false,
        Bool.false_eq_true, Option.some.injEq] at hp
      have hdrop : t.drop off ≠ [] := by
        intro hd
        rw [hd] at hp
        simp at hp
      have hoff : off < t.length := by
        by_contra hc
        exact hdrop (List.drop_eq_nil_of_le (Nat.le_of_not_lt hc))
      have hpnz : p ≠ 0 := by
        intro hz
        rw [hz] at hp
        simp at hp
      omega

/-- Generator `lazy_paginate(page_size)` over a table delivered without
faults: the pages of a fault-free run. -/
def lazy_paginate (p : Nat) (table : List Record) : List (List Record) :=
  (lazyPaginateRun p table (fun _ => false) (fun _ => false) 0).1

/-- Generator `stream_user_ages` (`4-stream_ages.py`, lines 15-49):
the `SELECT age FROM user_data` stream, yielding the age of each row
(fault-free, fully consumed run). -/
def stream_user_ages (t : List Record) : List Rat :=
  t.map (fun r => r.age)

/-- Observable outcome of one `calculate_average_age()` call: the
average it printed (`none` when it printed the no-users message
instead) and the Python return value of the call. -/
structure AvgRun where
  printedAvg : Option Rat
  ret : Option Rat
deriving DecidableEq

/-- Function `calculate_average_age` (`4-stream_ages.py`, lines 51-70): folds
`(total_age, user_count)` over the age stream, adding each age and
incrementing the count; if `user_count > 0` it prints
`total_age / user_count`, otherwise it prints a no-users message.
The function body has no `return` statement, so the call returns
`None` on both paths. -/
def calculate_average_age (t : List Record) : AvgRun :=
  let acc := (stream_user_ages t).foldl (fun a x => (a.1 + x, a.2 + 1)) ((0 : Rat), (0 : Nat))
  if 0 < acc.2 then ⟨some (acc.1 / (acc.2 : Rat)), none⟩ else ⟨none, none⟩

/-- Collision of a candidate row `r` with an existing row `x` on one
of the two unique keys of the `user_data` schema (`user_id` primary
key, `email` unique, `seed.py` lines 74-81). -/
def dupKey (r : Record) (x : Record) : Bool :=
  x.user_id == r.user_id || x.email == r.email

/-- One `INSERT IGNORE INTO user_data (user_id, name, email, age)
VALUES (...)` (`seed.py`, line 102) against the table state: the row
is skipped when it collides with an existing row on either unique key;
otherwise it is appended.  Existing rows are never modified. -/
def insertIgnore (t : List Record) (r : Record) : List Record :=
  if t.any (dupKey r) then t else t ++ [r]

/-- Function `insert_data` (`seed.py`, lines 93-137) over the successfully
parsed CSV rows, in file order: one `INSERT IGNORE` per row (rows that
fail to parse are skipped and change nothing). -/
def insert_data (t : List Record) (rows : List Record) : List Record :=
  rows.foldl insertIgnore t

/-- The example table of the spec: 5 rows with ages 20, 30, 22, 40, 19. -/
def exRec1 : Record := ⟨"u1", "Ada", "ada@example.com", 20⟩

def exRec2 : Record := ⟨"u2", "Bob", "bob@example.com", 30⟩

def exRec3 : Record := ⟨"u3", "Cyd", "cyd@example.com", 22⟩

def exRec4 : Record := ⟨"u4", "Dee", "dee@example.com", 40⟩

def exRec5 : Record := ⟨"u5", "Eli", "eli@example.com", 19⟩

def exampleTable : List Record := [exRec1, exRec2, exRec3, exRec4, exRec5]

/-- A CSV row carrying the `user_id` of `exRec1` with different
`name`, `email` and `age` fields. -/
def exRec1v2 : Record := ⟨"u1", "Ada Prime", "ada2@example.com", 21⟩

/-- A 10-row table, for the pagination example of the spec. -/
def exampleTable10 : List Record :=
  [⟨"v1", "P1", "p1@example.com", 21⟩,
   ⟨"v2", "P2", "p2@example.com", 22⟩,
   ⟨"v3", "P3", "p3@example.com", 23⟩,
   ⟨"v4", "P4", "p4@example.com", 24⟩,
   ⟨"v5", "P5", "p5@example.com", 25⟩,
   ⟨"v6", "P6", "p6@example.com", 26⟩,
   ⟨"v7", "P7", "p7@example.com", 27⟩,
   ⟨"v8", "P8", "p8@example.com", 28⟩,
   ⟨"v9", "P9", "p9@example.com", 29⟩,
   ⟨"v10", "P10", "p10@example.com", 30⟩]

/-! ### Characterizations of fault-free runs -/

theorem rowLoop_map_row (t : List Record) : rowLoop (t.map Pull.row) none = (t, false) := by
  induction t with
  | nil => rfl
  | cons a t ih => simp [rowLoop, ih]

theorem stream_users_eq (t : List Record) : stream_users t = t := by
  simp [stream_users, stream_users_run, rowLoop_map_row]

theorem fetchRows_map_row (n : Nat) (t : List Record) :
    fetchRows n (t.map Pull.row) = some (t.take n, (t.drop n).map Pull.row) := by
  induction n generalizing t with
  | zero => simp [fetchRows]
  | succ n ih =>
    cases t with
    | nil => simp [fetchRows]
    | cons a t' => simp [fetchRows, ih]

theorem fetchmanyS_map_row (n : Nat) (hn : 1 ≤ n) (t : List Record) :
    fetchmanyS n (t.map Pull.row) = some (t.take n, (t.drop n).map Pull.row) := by
  unfold fetchmanyS
  rw [if_neg (by omega)]
  exact fetchRows_map_row n t

theorem batchLoop_eq (n : Nat) (pulls : List Pull) (budget : Option Nat) :
    batchLoop n pulls budget =
      if budget = some 0 then ([], false)
      else
        match fetchmanyS n pulls with
        | none => ([], true)
        | some ([], _) => ([], false)
        | some (b :: bs, rest) =>
          let r := batchLoop n rest (budget.map (fun m => m - 1))
          ((b :: bs) :: r.1, r.2) := by
  rw [batchLoop]
  split
  · rfl
  · split <;> (rename_i hf; rw [hf])

theorem batches_nil (n : Nat) : stream_users_in_batches n [] = [] := by
  have h : fetchmanyS n [] = some ([], []) := by
    unfold fetchmanyS
    by_cases h0 : n = 0
    · rw [if_pos h0]
      rfl
    · rw [if_neg h0]
      cases n with
      | zero => exact absurd rfl h0
      | succ m => rfl
  simp [stream_users_in_batches, stream_users_in_batches_run, batchLoop_eq, h]

theorem batches_cons (n : Nat) (hn : 1 ≤ n) (t : List Record) (ht : t ≠ []) :
    stream_users_in_batches n t = t.take n :: stream_users_in_batches n (t.drop n) := by
  obtain ⟨a, t', rfl⟩ := List.exists_cons_of_ne_nil ht
  cases n with
  | zero => omega
  | succ m =>
    simp only [stream_users_in_batches, stream_users_in_batches_run]
    rw [batchLoop_eq, fetchmanyS_map_row (m + 1) (by omega)]
    simp [List.take_succ_cons, List.drop_succ_cons]

theorem batchLoop_zero_one : ∀ (N : Nat) (ps : List Pull) (b : Option Nat), ps.length ≤ N →
    batchLoop 0 ps b = batchLoop 1 ps b := by
  intro N
  induction N with
  | zero =>
    intro ps b hps
    have hnil : ps = [] := List.eq_nil_of_length_eq_zero (Nat.le_zero.mp hps)
    subst hnil
    rw [batchLoop_eq, batchLoop_eq]
    by_cases hb : b = some 0
    · rw [if_pos hb, if_pos hb]
    · rw [if_neg hb, if_neg hb]
      rfl
  | succ N ih =>
    intro ps b hps
    rw [batchLoop_eq, batchLoop_eq]
    by_cases hb : b = some 0
    · rw [if_pos hb, if_pos hb]
    · rw [if_neg hb, if_neg hb]
      have hsc : fetchmanyS 0 ps = fetchmanyS 1 ps := rfl
      rw [hsc]
      cases hm : fetchmanyS 1 ps with
      | none => rfl
      | some pr =>
        obtain ⟨bb, rest⟩ := pr
        cases bb with
        | nil => rfl
        | cons x xs =>
          have hlen := fetchmanyS_length hm
          simp only [List.length_cons] at hlen
          have hrec := ih rest (b.map (fun m => m - 1)) (by omega)
          simp [hrec]

theorem batches_zero_eq_one (t : List Record) :
    stream_users_in_batches 0 t = stream_users_in_batches 1 t := by
  have h := batchLoop_zero_one (t.map Pull.row).length (t.map Pull.row) none (Nat.le_refl _)
  simp [stream_users_in_batches, stream_users_in_batches_run, h]

theorem take_ne_nil {α : Type} {n : Nat} (hn : 1 ≤ n) {u : List α} (hu : u ≠ []) :
    u.take n ≠ [] := by
  obtain ⟨a, u', rfl⟩ := List.exists_cons_of_ne_nil hu
  cases n with
  | zero => omega
  | succ m => simp

theorem batches_flatten (n : Nat) (hn : 1 ≤ n) (t : List Record) :
    (stream_users_in_batches n t).flatten = t := by
  have H : ∀ (N : Nat) (u : List Record), u.length ≤ N →
      (stream_users_in_batches n u).flatten = u := by
    intro N
    induction N with
    | zero =>
      intro u hu
      have hnl : u = [] := List.eq_nil_of_length_eq_zero (Nat.le_zero.mp hu)
      subst hnl
      simp [batches_nil]
    | succ N ih =>
      intro u hu
      by_cases hne : u = []
      · subst hne; simp [batches_nil]
      · rw [batches_cons n hn u hne]
        have hpos : 0 < u.length := List.length_pos.mpr hne
        have hlen : (u.drop n).length ≤ N := by
          simp only [List.length_drop]
          omega
        rw [List.flatten_cons, ih (u.drop n) hlen]
        exact List.take_append_drop n u
  exact H t.length t (Nat.le_refl _)

theorem batches_ne_nil (n : Nat) (hn : 1 ≤ n) (t : List Record) :
    ∀ b ∈ stream_users_in_batches n t, b ≠ [] := by
  have H : ∀ (N : Nat) (u : List Record), u.length ≤ N →
      ∀ b ∈ stream_users_in_batches n u, b ≠ [] := by
    intro N
    induction N with
    | zero =>
      intro u hu b hb
      have hnl : u = [] := List.eq_nil_of_length_eq_zero (Nat.le_zero.mp hu)
      subst hnl
      rw [batches_nil] at hb
      simp at hb
    | succ N ih =>
      intro u hu b hb
      by_cases hne : u = []
      · subst hne; rw [batches_nil] at hb; simp at hb
      · rw [batches_cons n hn u hne] at hb
        have hpos : 0 < u.length := List.length_pos.mpr hne
        rcases List.mem_cons.mp hb with h | h
        · subst h
          exact take_ne_nil hn hne
        · exact ih (u.drop n) (by simp only [List.length_drop]; omega) b h
  exact H t.length t (Nat.le_refl _)

theorem batches_dropLast (n : Nat) (hn : 1 ≤ n) (t : List Record) :
    ∀ b ∈ (stream_users_in_batches n t).dropLast, b.length = n := by
  have H : ∀ (N : Nat) (u : List Record), u.length ≤ N →
      ∀ b ∈ (stream_users_in_batches n u).dropLast, b.length = n := by
    intro N
    induction N with
    | zero =>
      intro u hu b hb
      have hnl : u = [] := List.eq_nil_of_length_eq_zero (Nat.le_zero.mp hu)
      subst hnl
      rw [batches_nil] at hb
      simp at hb
    | succ N ih =>
      intro u hu b hb
      by_cases hne : u = []
      · subst hne; rw [batches_nil] at hb; simp at hb
      · rw [batches_cons n hn u hne] at hb
        have hpos : 0 < u.length := List.length_pos.mpr hne
        cases hrest : stream_users_in_batches n (u.drop n) with
        | nil => rw [hrest] at hb; simp at hb
        | cons c cs =>
          rw [hrest] at hb
          rw [List.dropLast_cons₂] at hb
          rcases List.mem_cons.mp hb with h | h
          · subst h
            have hdne : u.drop n ≠ [] := by
              intro hdn
              rw [hdn, batches_nil] at hrest
              simp at hrest
            have hlt : n < u.length := by
              by_contra hc
              exact hdne (List.drop_eq_nil_of_le (Nat.le_of_not_lt hc))
            simp only [List.length_take]
            omega
          · have hmem : b ∈ (stream_users_in_batches n (u.drop n)).dropLast := by
              rw [hrest]
              exact h
            exact ih (u.drop n) (by simp only [List.length_drop]; omega) b hmem
  exact H t.length t (Nat.le_refl _)

theorem filter_flatten_comm (q : Record → Bool) (L : List (List Record)) :
    (L.map (List.filter q)).flatten = L.flatten.filter q := by
  induction L with
  | nil => rfl
  | cons a L ih =>
    simp only [List.map_cons, List.flatten_cons, List.filter_append, ih]

theorem batch_processing_eq_filter (n : Nat) (hn : 1 ≤ n) (t : List Record) :
    batch_processing n t = t.filter olderThan25 := by
  unfold batch_processing
  rw [filter_flatten_comm, batches_flatten n hn t]

theorem rowLoop_none_fst (pulls : List Pull) : (rowLoop pulls none).1 = pulledRows pulls := by
  induction pulls with
  | nil => rfl
  | cons p ps ih => cases p <;> simp [rowLoop, pulledRows, ih]

theorem pageRet_eq (t : List Record) (cF qF : Nat → Bool) (p off : Nat) :
    (paginate_users_run (pageFetchAt t cF qF p off)).ret =
      if cF off then some []
      else if qF off then none
      else some ((t.drop off).take p) := by
  by_cases h1 : cF off <;> by_cases h2 : qF off <;>
    simp [pageFetchAt, paginate_users_run, h1, h2]

theorem lazyRun_eq (p : Nat) (t : List Record) (cF qF : Nat → Bool) (off : Nat) :
    lazyPaginateRun p t cF qF off =
      match (paginate_users_run (pageFetchAt t cF qF p off)).ret with
      | none => ([], true)
      | some [] => ([], false)
      | some (r :: rs) =>
        ((r :: rs) :: (lazyPaginateRun p t cF qF (off + p)).1,
          (lazyPaginateRun p t cF qF (off + p)).2) := by
  rw [lazyPaginateRun]
  split <;> rename_i heq <;> rw [heq]

theorem lazy_step (p : Nat) (t : List Record) (off : Nat) :
    lazyPaginateRun p t (fun _ => false) (fun _ => false) off =
      if (t.drop off).take p = [] then ([], false)
      else ((t.drop off).take p ::
          (lazyPaginateRun p t (fun _ => false) (fun _ => false) (off + p)).1,
        (lazyPaginateRun p t (fun _ => false) (fun _ => false) (off + p)).2) := by
  rw [lazyRun_eq, pageRet_eq]
  cases hpg : (t.drop off).take p with
  | nil => simp
  | cons r rs => simp

theorem lazy_pages_step (p : Nat) (t : List Record) (off : Nat) :
    (lazyPaginateRun p t (fun _ => false) (fun _ => false) off).1 =
      if (t.drop off).take p = [] then []
      else (t.drop off).take p ::
        (lazyPaginateRun p t (fun _ => false) (fun _ => false) (off + p)).1 := by
  rw [lazy_step]
  by_cases hpg : (t.drop off).take p = [] <;> simp [hpg]

theorem lazy_flatten (p : Nat) (hp : 1 ≤ p) (t : List Record) :
    (lazy_paginate p t).flatten = t := by
  have H : ∀ (N off : Nat), t.length - off ≤ N →
      ((lazyPaginateRun p t (fun _ => false) (fun _ => false) off).1).flatten =
        t.drop off := by
    intro N
    induction N with
    | zero =>
      intro off hoff
      have hd : t.drop off = [] := List.drop_eq_nil_of_le (by omega)
      rw [lazy_pages_step]
      simp [hd]
    | succ N ih =>
      intro off hoff
      rw [lazy_pages_step]
      by_cases hpg : (t.drop off).take p = []
      · have hd : t.drop off = [] := by
          by_contra hne
          exact take_ne_nil hp hne hpg
        simp [hpg, hd]
      · have hne : t.drop off ≠ [] := by
          intro h
          rw [h] at hpg
          simp at hpg
        have hofflt : off < t.length := by
          by_contra hc
          exact hne (List.drop_eq_nil_of_le (by omega))
        rw [if_neg hpg, List.flatten_cons, ih (off + p) (by omega)]
        rw [← List.drop_drop]
        exact List.take_append_drop p (t.drop off)
  have h0 := H t.length 0 (by omega)
  simpa [lazy_paginate] using h0

theorem lazy_getElem (p : Nat) (t : List Record) (i : Nat) : ∀ (off : Nat) (pg : List Record),
    ((lazyPaginateRun p t (fun _ => false) (fun _ => false) off).1)[i]? = some pg →
      pg = (t.drop (off + i * p)).take p ∧ pg ≠ [] := by
  induction i with
  | zero =>
    intro off pg h
    rw [lazy_pages_step] at h
    by_cases hpg : (t.drop off).take p = []
    · rw [if_pos hpg] at h
      simp at h
    · rw [if_neg hpg] at h
      simp only [List.getElem?_cons_zero, Option.some.injEq] at h
      subst h
      constructor
      · simp
      · exact hpg
  | succ i ih =>
    intro off pg h
    rw [lazy_pages_step] at h
    by_cases hpg : (t.drop off).take p = []
    · rw [if_pos hpg] at h
      simp at h
    · rw [if_neg hpg] at h
      simp only [List.getElem?_cons_succ] at h
      have hrec := ih (off + p) pg h
      refine ⟨?_, hrec.2⟩
      rw [hrec.1]
      have harith : off + p + i * p = off + (i + 1) * p := by
        rw [Nat.succ_mul]
        omega
      rw [harith]

theorem lazy_page_lengths (t : List Record) (h10 : t.length = 10) :
    (lazy_paginate 4 t).map List.length = [4, 4, 2] := by
  have l0 : (t.take 4).length = 4 := by
    simp only [List.length_take]
    omega
  have l4 : ((t.drop 4).take 4).length = 4 := by
    simp only [List.length_take, List.length_drop]
    omega
  have l8 : ((t.drop 8).take 4).length = 2 := by
    simp only [List.length_take, List.length_drop]
    omega
  have l12 : t.drop 12 = [] := List.drop_eq_nil_of_le (by omega)
  have ne0 : (t.drop 0).take 4 ≠ [] := by
    rw [List.drop_zero]
    intro hc
    rw [hc] at l0
    simp at l0
  have ne4 : (t.drop 4).take 4 ≠ [] := by
    intro hc
    rw [hc] at l4
    simp at l4
  have ne8 : (t.drop 8).take 4 ≠ [] := by
    intro hc
    rw [hc] at l8
    simp at l8
  have e12 : (t.drop 12).take 4 = [] := by
    rw [l12]
    simp
  have s0 : lazy_paginate 4 t =
      t.take 4 :: (lazyPaginateRun 4 t (fun _ => false) (fun _ => false) 4).1 := by
    rw [lazy_paginate, lazy_pages_step, if_neg ne0]
    simp
  have s4 : (lazyPaginateRun 4 t (fun _ => false) (fun _ => false) 4).1 =
      (t.drop 4).take 4 :: (lazyPaginateRun 4 t (fun _ => false) (fun _ => false) 8).1 := by
    rw [lazy_pages_step, if_neg ne4]
  have s8 : (lazyPaginateRun 4 t (fun _ => false) (fun _ => false) 8).1 =
      (t.drop 8).take 4 :: (lazyPaginateRun 4 t (fun _ => false) (fun _ => false) 12).1 := by
    rw [lazy_pages_step, if_neg ne8]
  have s12 : (lazyPaginateRun 4 t (fun _ => false) (fun _ => false) 12).1 = [] := by
    rw [lazy_pages_step, if_pos e12]
  rw [s0, s4, s8, s12]
  simp [l0, l4, l8]

theorem lazy_connfail_trunc (p : Nat) (hp : 1 ≤ p) (t : List Record) (k : Nat) :
    lazyPaginateRun p t (fun off => decide (k * p ≤ off)) (fun _ => false) 0 =
      (lazy_paginate p (t.take (k * p)), false) := by
  have base : ∀ (i : Nat), k ≤ i →
      lazyPaginateRun p t (fun off => decide (k * p ≤ off)) (fun _ => false) (i * p) =
        ((lazyPaginateRun p (t.take (k * p)) (fun _ => false) (fun _ => false) (i * p)).1,
          false) := by
    intro i hik
    have hmul : k * p ≤ i * p := Nat.mul_le_mul_right p hik
    have hdrop : (t.take (k * p)).drop (i * p) = [] := by
      apply List.drop_eq_nil_of_le
      calc (t.take (k * p)).length ≤ k * p := by
            simp only [List.length_take]
            omega
        _ ≤ i * p := hmul
    have hc2 : ((t.take (k * p)).drop (i * p)).take p = [] := by
      rw [hdrop]
      simp
    rw [lazyRun_eq, pageRet_eq, lazy_pages_step, if_pos hc2]
    simp [hmul]
  have H : ∀ (d i : Nat), k ≤ i + d →
      lazyPaginateRun p t (fun off => decide (k * p ≤ off)) (fun _ => false) (i * p) =
        ((lazyPaginateRun p (t.take (k * p)) (fun _ => false) (fun _ => false) (i * p)).1,
          false) := by
    intro d
    induction d with
    | zero =>
      intro i hik
      exact base i (by omega)
    | succ d ih =>
      intro i hik
      by_cases hk : k ≤ i
      · exact base i hk
      · have hilt : i < k := Nat.lt_of_not_le hk
        have hmul : (i + 1) * p ≤ k * p := Nat.mul_le_mul_right p hilt
        have hmul' : i * p + p ≤ k * p := by
          rw [Nat.succ_mul] at hmul
          omega
        have hnfa : ¬ k * p ≤ i * p := by omega
        have hpage : ((t.take (k * p)).drop (i * p)).take p = (t.drop (i * p)).take p := by
          rw [List.drop_take, List.take_take]
          have hmin : min p (k * p - i * p) = p := Nat.min_eq_left (by omega)
          rw [hmin]
        rw [lazyRun_eq, pageRet_eq, lazy_pages_step, hpage]
        rw [if_neg (by simp [hnfa])]
        rw [if_neg (by simp : ¬ ((fun _ => false) (i * p) = true))]
        by_cases hpg : (t.drop (i * p)).take p = []
        · rw [hpg, if_pos rfl]
        · obtain ⟨r, rs, hrr⟩ := List.exists_cons_of_ne_nil hpg
          rw [hrr] at hpg ⊢
          rw [if_neg hpg]
          have harith : i * p + p = (i + 1) * p := by
            rw [Nat.succ_mul]
          rw [harith, ih (i + 1) (by omega)]
  have h0 := H k 0 (by omega)
  simpa [lazy_paginate] using h0

theorem lazy_qerr_raises (p : Nat) (hp : 1 ≤ p) (t : List Record) (k : Nat)
    (hk : k * p ≤ t.length) :
    lazyPaginateRun p t (fun _ => false) (fun off => decide (k * p ≤ off)) 0 =
      (lazy_paginate p (t.take (k * p)), true) := by
  have base : ∀ (i : Nat), k ≤ i →
      lazyPaginateRun p t (fun _ => false) (fun off => decide (k * p ≤ off)) (i * p) =
        ((lazyPaginateRun p (t.take (k * p)) (fun _ => false) (fun _ => false) (i * p)).1,
          true) := by
    intro i hik
    have hmul : k * p ≤ i * p := Nat.mul_le_mul_right p hik
    have hdrop : (t.take (k * p)).drop (i * p) = [] := by
      apply List.drop_eq_nil_of_le
      calc (t.take (k * p)).length ≤ k * p := by
            simp only [List.length_take]
            omega
        _ ≤ i * p := hmul
    have hc2 : ((t.take (k * p)).drop (i * p)).take p = [] := by
      rw [hdrop]
      simp
    rw [lazyRun_eq, pageRet_eq, lazy_pages_step, if_pos hc2]
    simp [hmul]
  have H : ∀ (d i : Nat), k ≤ i + d →
      lazyPaginateRun p t (fun _ => false) (fun off => decide (k * p ≤ off)) (i * p) =
        ((lazyPaginateRun p (t.take (k * p)) (fun _ => false) (fun _ => false) (i * p)).1,
          true) := by
    intro d
    induction d with
    | zero =>
      intro i hik
      exact base i (by omega)
    | succ d ih =>
      intro i hik
      by_cases hk' : k ≤ i
      · exact base i hk'
      · have hilt : i < k := Nat.lt_of_not_le hk'
        have hmul : (i + 1) * p ≤ k * p := Nat.mul_le_mul_right p hilt
        have hmul' : i * p + p ≤ k * p := by
          rw [Nat.succ_mul] at hmul
          omega
        have hnfa : ¬ k * p ≤ i * p := by omega
        have hpage : ((t.take (k * p)).drop (i * p)).take p = (t.drop (i * p)).take p := by
          rw [List.drop_take, List.take_take]
          have hmin : min p (k * p - i * p) = p := Nat.min_eq_left (by omega)
          rw [hmin]
        have hlen : ((t.drop (i * p)).take p).length = p := by
          simp only [List.length_take, List.length_drop]
          omega
        have hpg : (t.drop (i * p)).take p ≠ [] := by
          intro hc
          rw [hc] at hlen
          simp only [List.length_nil] at hlen
          omega
        rw [lazyRun_eq, pageRet_eq, lazy_pages_step, hpage]
        rw [if_neg (by simp : ¬ ((fun _ => false) (i * p) = true))]
        rw [if_neg (by simp [hnfa])]
        obtain ⟨r, rs, hrr⟩ := List.exists_cons_of_ne_nil hpg
        rw [hrr] at hpg ⊢
        rw [if_neg hpg]
        have harith : i * p + p = (i + 1) * p := by
          rw [Nat.succ_mul]
        rw [harith, ih (i + 1) (by omega)]
  have h0 := H k 0 (by omega)
  simpa [lazy_paginate] using h0

/-! ### Lemmas about the aggregate and the seed step -/

theorem avg_foldl (l : List Rat) : ∀ (s : Rat) (c : Nat),
    l.foldl (fun a x => (a.1 + x, a.2 + 1)) (s, c) = (s + l.sum, c + l.length) := by
  induction l with
  | nil =>
    intro s c
    simp
  | cons x l ih =>
    intro s c
    simp only [List.foldl_cons, List.sum_cons, List.length_cons]
    rw [ih (s + x) (c + 1)]
    rw [Prod.ext_iff]
    constructor
    · simp only
      ring
    · simp only
      omega

theorem calculate_average_age_eq (t : List Record) :
    calculate_average_age t =
      if t.length = 0 then ⟨none, none⟩
      else ⟨some ((stream_user_ages t).sum / (t.length : Rat)), none⟩ := by
  unfold calculate_average_age
  rw [avg_foldl]
  by_cases h : t.length = 0
  · simp [stream_user_ages, h]
  · simp only [stream_user_ages, List.length_map, zero_add, Nat.zero_add]
    rw [if_pos (by omega), if_neg h]

theorem insertIgnore_conflict {t : List Record} {r : Record} (h : t.any (dupKey r) = true) :
    insertIgnore t r = t := by
  simp [insertIgnore, h]

theorem any_insertIgnore_self (t : List Record) (r : Record) :
    (insertIgnore t r).any (dupKey r) = true := by
  unfold insertIgnore
  split
  · assumption
  · simp [List.any_append, dupKey]

theorem any_insert_data_mono (q : Record → Bool) (rows : List Record) :
    ∀ t : List Record, t.any q = true → (insert_data t rows).any q = true := by
  induction rows with
  | nil =>
    intro t h
    exact h
  | cons a rows ih =>
    intro t h
    have h1 : insert_data t (a :: rows) = insert_data (insertIgnore t a) rows := rfl
    rw [h1]
    apply ih
    unfold insertIgnore
    split
    · exact h
    · simp [List.any_append, h]

theorem insert_data_conflicts (t : List Record) (rows : List Record) :
    ∀ r ∈ rows, (insert_data t rows).any (dupKey r) = true := by
  induction rows generalizing t with
  | nil =>
    intro r hr
    simp at hr
  | cons a rows ih =>
    intro r hr
    have h1 : insert_data t (a :: rows) = insert_data (insertIgnore t a) rows := rfl
    rcases List.mem_cons.mp hr with rfl | hmem
    · rw [h1]
      exact any_insert_data_mono (dupKey r) rows (insertIgnore t r) (any_insertIgnore_self t r)
    · rw [h1]
      exact ih (insertIgnore t a) r hmem

theorem insert_data_noop (t : List Record) : ∀ (rows : List Record),
    (∀ r ∈ rows, t.any (dupKey r) = true) → insert_data t rows = t := by
  intro rows
  induction rows with
  | nil =>
    intro h
    rfl
  | cons a rows ih =>
    intro h
    have ha : insertIgnore t a = t := insertIgnore_conflict (h a (by simp))
    have h1 : insert_data t (a :: rows) = insert_data (insertIgnore t a) rows := rfl
    rw [h1, ha]
    exact ih (fun r hr => h r (by simp [hr]))

theorem insert_data_append (t rows : List Record) : ∃ u, insert_data t rows = t ++ u := by
  induction rows generalizing t with
  | nil => exact ⟨[], by simp [insert_data]⟩
  | cons a rows ih =>
    have h1 : insert_data t (a :: rows) = insert_data (insertIgnore t a) rows := rfl
    obtain ⟨u, hu⟩ := ih (insertIgnore t a)
    by_cases hc : t.any (dupKey a) = true
    · refine ⟨u, ?_⟩
      rw [h1, hu, insertIgnore_conflict hc]
    · refine ⟨a :: u, ?_⟩
      rw [h1, hu]
      unfold insertIgnore
      rw [if_neg hc]
      simp

theorem insert_data_take (t rows : List Record) : (insert_data t rows).take t.length = t := by
  obtain ⟨u, hu⟩ := insert_data_append t rows
  rw [hu]
  exact List.take_left t u

/-! ### The claims -/

/-- Claim C1: for every table and every `batch_size n ≥ 1`,
concatenating all batches yielded by `stream_users_in_batches(n)`
equals exactly the sequence of records yielded by `stream_users()`,
every yielded batch is non-empty, and every batch except possibly the
last has length exactly `n`. -/
theorem batches_concat_correct (n : Nat) (hn : 1 ≤ n) (t : List Record) :
    (stream_users_in_batches n t).flatten = stream_users t
    ∧ (∀ b ∈ stream_users_in_batches n t, b ≠ [])
    ∧ (∀ b ∈ (stream_users_in_batches n t).dropLast, b.length = n) := by
  refine ⟨?_, batches_ne_nil n hn t, batches_dropLast n hn t⟩
  rw [stream_users_eq]
  exact batches_flatten n hn t

theorem batches_concat_correct_witness :
    1 ≤ 2 ∧
      ((stream_users_in_batches 2 exampleTable).flatten = stream_users exampleTable
      ∧ (∀ b ∈ stream_users_in_batches 2 exampleTable, b ≠ [])
      ∧ (∀ b ∈ (stream_users_in_batches 2 exampleTable).dropLast, b.length = 2)) :=
  ⟨by decide, batches_concat_correct 2 (by decide) exampleTable⟩

/-- Claim C2: for every table and every `batch_size n ≥ 1`,
`batch_processing(n)` yields exactly the records of `stream_users()`
with `age > 25`, in stream order; the result does not depend on `n`;
and on the example table of 5 rows with ages 20, 30, 22, 40, 19 and
`n = 2`, exactly the two records with ages 30 and 40 are yielded, in
that relative order. -/
theorem batch_processing_filter (n : Nat) (hn : 1 ≤ n) (t : List Record) :
    batch_processing n t = (stream_users t).filter olderThan25
    ∧ (∀ m : Nat, 1 ≤ m → batch_processing m t = batch_processing n t)
    ∧ batch_processing 2 exampleTable = [exRec2, exRec4] := by
  refine ⟨?_, ?_, ?_⟩
  · rw [stream_users_eq]
    exact batch_processing_eq_filter n hn t
  · intro m hm
    rw [batch_processing_eq_filter m hm t, batch_processing_eq_filter n hn t]
  · rw [batch_processing_eq_filter 2 (by omega) exampleTable]
    decide

theorem batch_processing_filter_witness :
    1 ≤ 2 ∧
      (batch_processing 2 exampleTable = (stream_users exampleTable).filter olderThan25
      ∧ (∀ m : Nat, 1 ≤ m → batch_processing m exampleTable = batch_processing 2 exampleTable)
      ∧ batch_processing 2 exampleTable = [exRec2, exRec4]) :=
  ⟨by decide, batch_processing_filter 2 (by decide) exampleTable⟩

/-- Claim C3, counterexample: on the pull script "one row, then a
driver error", the `stream_users` generator catches the error
(`errored = true`) but re-raises nothing — `raised = false`, no
`StreamError` or any other exception reaches the caller; the stream
just ends after the one row yielded before the failure. -/
theorem stream_error_swallowed_cex :
    (stream_users_run true [Pull.row exRec1, Pull.err] none).errored = true
    ∧ (stream_users_run true [Pull.row exRec1, Pull.err] none).raised = false
    ∧ (stream_users_run true [Pull.row exRec1, Pull.err] none).yielded = [exRec1]
    ∧ (stream_users_run true [Pull.row exRec1, Pull.err] none).closes = 1 :=
  ⟨rfl, rfl, rfl, rfl⟩

/-- Claim C3 (amended): a transport/query error while pulling rows is
caught and logged inside `stream_users` and `stream_users_in_batches`;
the connection and cursor are still released (`closes = opens`), but
the error is never re-surfaced — no exception of any kind escapes to
the caller (`raised = false` on every run), and the stream silently
ends after the elements yielded before the failure (a fault-free,
fully consumed run yields exactly the rows the script delivers before
its first end or error). -/
theorem stream_error_swallowed (ok : Bool) (pulls : List Pull) (budget : Option Nat) (n : Nat) :
    (stream_users_run ok pulls budget).raised = false
    ∧ (stream_users_in_batches_run ok n pulls budget).raised = false
    ∧ (stream_users_run ok pulls budget).closes = (stream_users_run ok pulls budget).opens
    ∧ (stream_users_in_batches_run ok n pulls budget).closes =
        (stream_users_in_batches_run ok n pulls budget).opens
    ∧ (stream_users_run true pulls none).yielded = pulledRows pulls := by
  refine ⟨?_, ?_, ?_, ?_, ?_⟩
  · unfold stream_users_run
    split
    · rfl
    · split <;> rfl
  · unfold stream_users_in_batches_run
    split
    · rfl
    · split <;> rfl
  · unfold stream_users_run
    split
    · rfl
    · split <;> rfl
  · unfold stream_users_in_batches_run
    split
    · rfl
    · split <;> rfl
  · simp [stream_users_run, rowLoop_none_fst]

/-- Claim C4, counterexample: `calculate_average_age` does not return
the mean, and does not return the sentinel `0` on an empty stream —
its Python return value is `None` on both paths (it only prints). -/
theorem average_return_cex :
    (calculate_average_age []).ret ≠ some 0
    ∧ (calculate_average_age exampleTable).ret ≠ some ((131 : Rat) / 5) := by
  constructor
  · decide
  · decide

/-- Claim C4 (amended): `calculate_average_age` computes the running
`(sum, count)` over the age stream and, when the stream is non-empty,
prints the arithmetic mean `sum / count` (26.2 = 131/5 for the example
ages 20, 30, 22, 40, 19); on an empty stream it prints a no-users
message instead; in both cases the function returns `None` rather
than a number. -/
theorem average_printed_mean (t : List Record) :
    (calculate_average_age t).ret = none
    ∧ (calculate_average_age t).printedAvg =
        (if t.length = 0 then none
         else some ((stream_user_ages t).sum / (t.length : Rat)))
    ∧ (calculate_average_age exampleTable).printedAvg = some ((131 : Rat) / 5) := by
  refine ⟨?_, ?_, ?_⟩
  · rw [calculate_average_age_eq]
    split <;> rfl
  · rw [calculate_average_age_eq]
    split <;> rfl
  · rw [calculate_average_age_eq]
    have hs : (stream_user_ages exampleTable).sum = (131 : Rat) := by
      norm_num [stream_user_ages, exampleTable, exRec1, exRec2, exRec3, exRec4, exRec5]
    have hl : exampleTable.length = 5 := rfl
    rw [if_neg (by rw [hl]; omega), hs, hl]
    norm_num

/-- Claim C5, counterexample: with `batch_size = 0` (a size that is
not a positive integer) over a one-row table,
`stream_users_in_batches` raises nothing at all (`raised = false`) and
still opens its connection and runs its query (`opens = 1`) — there is
no `InvalidArgument` and no fail-fast before I/O; likewise
`lazy_paginate 0` just terminates normally with no pages. -/
theorem size_validation_cex :
    (stream_users_in_batches_run true 0 [Pull.row exRec1] none).raised = false
    ∧ (stream_users_in_batches_run true 0 [Pull.row exRec1] none).opens = 1
    ∧ lazy_paginate 0 [exRec1] = [] := by
  refine ⟨rfl, rfl, ?_⟩
  rw [lazy_paginate, lazy_pages_step,
    if_pos (by simp : List.take 0 (List.drop 0 [exRec1]) = [])]

/-- Claim C5 (amended): neither `stream_users_in_batches` nor
`lazy_paginate` validates its size argument, and no `InvalidArgument`
check or type exists anywhere in the code.  `stream_users_in_batches`
opens its connection and executes its query before `batch_size` is
ever used (`opens = 1` on every script) and raises nothing; with size
0 the driver computes `size or arraysize` and so behaves exactly as
with batch size 1; and `lazy_paginate 0` issues its `LIMIT 0` query,
receives an empty page and terminates without yielding.  Negative
sizes fall outside this Nat-indexed model; in the source they too
produce no `InvalidArgument` and no fail-fast — for `lazy_paginate`
the malformed `LIMIT` makes the driver error escape as a `NameError`
(see `paginate_users_run`), still only after the connection I/O. -/
theorem no_size_validation (pulls : List Pull) (t : List Record) :
    (stream_users_in_batches_run true 0 pulls none).opens = 1
    ∧ (stream_users_in_batches_run true 0 pulls none).raised = false
    ∧ stream_users_in_batches 0 t = stream_users_in_batches 1 t
    ∧ lazy_paginate 0 t = [] := by
  refine ⟨rfl, rfl, batches_zero_eq_one t, ?_⟩
  rw [lazy_paginate, lazy_pages_step,
    if_pos (by simp : List.take 0 (List.drop 0 t) = [])]

/-- Claim C6: for every table (with its stable query ordering) and
every `page_size p ≥ 1`, `lazy_paginate(p)` starts at offset 0 and
fetches page `i` with `LIMIT p OFFSET i·p` (so the offset increments
by exactly `p` after each non-empty page), never yields an empty page,
terminates on the first empty fetch, and concatenating all pages
reproduces the records of `stream_users()`; over any 10-row table,
`lazy_paginate(4)` yields pages of lengths [4, 4, 2] and then
terminates. -/
theorem lazy_paginate_correct (p : Nat) (hp : 1 ≤ p) (t : List Record) :
    (lazy_paginate p t).flatten = stream_users t
    ∧ (∀ (i : Nat) (pg : List Record), (lazy_paginate p t)[i]? = some pg →
        pg = (t.drop (i * p)).take p ∧ pg ≠ [])
    ∧ (t.length = 10 → (lazy_paginate 4 t).map List.length = [4, 4, 2]) := by
  refine ⟨?_, ?_, lazy_page_lengths t⟩
  · rw [stream_users_eq]
    exact lazy_flatten p hp t
  · intro i pg h
    have hx := lazy_getElem p t i 0 pg (by simpa [lazy_paginate] using h)
    simpa using hx

theorem lazy_paginate_correct_witness :
    1 ≤ 4 ∧
      ((lazy_paginate 4 exampleTable10).flatten = stream_users exampleTable10
      ∧ (∀ (i : Nat) (pg : List Record), (lazy_paginate 4 exampleTable10)[i]? = some pg →
          pg = (exampleTable10.drop (i * 4)).take 4 ∧ pg ≠ [])
      ∧ (exampleTable10.length = 10 →
          (lazy_paginate 4 exampleTable10).map List.length = [4, 4, 2])) :=
  ⟨by decide, lazy_paginate_correct 4 (by decide) exampleTable10⟩

/-- Claim C7: for every table, `stream_users()` yields exactly as many
records as the table has rows, each row exactly once and in query
order (the yielded sequence is the table itself), and a pull at any
index past the end yields nothing. -/
theorem stream_users_exhaustive (t : List Record) :
    stream_users t = t ∧ ∀ k : Nat, (stream_users t)[t.length + k]? = none := by
  refine ⟨stream_users_eq t, ?_⟩
  intro k
  rw [stream_users_eq t]
  exact List.getElem?_eq_none (by omega)

/-- Claim C8: on every exit path of every stream — normal exhaustion,
driver error partway through, failed connection, a caller that never
starts the generator or abandons it early — the connections opened by
that run are closed exactly as many times (`closes = opens`), and each
generator run of `stream_users` / `stream_users_in_batches` opens at
most one connection, while each `paginate_users` call closes exactly
what it opened. -/
theorem resources_released (ok : Bool) (pulls : List Pull) (budget : Option Nat) (n : Nat)
    (pf : PageFetch) :
    (stream_users_run ok pulls budget).closes = (stream_users_run ok pulls budget).opens
    ∧ (stream_users_run ok pulls budget).opens ≤ 1
    ∧ (stream_users_in_batches_run ok n pulls budget).closes =
        (stream_users_in_batches_run ok n pulls budget).opens
    ∧ (stream_users_in_batches_run ok n pulls budget).opens ≤ 1
    ∧ (paginate_users_run pf).closes = (paginate_users_run pf).opens := by
  refine ⟨?_, ?_, ?_, ?_, ?_⟩
  · unfold stream_users_run
    split
    · rfl
    · split <;> rfl
  · unfold stream_users_run
    split
    · simp
    · split <;> simp
  · unfold stream_users_in_batches_run
    split
    · rfl
    · split <;> rfl
  · unfold stream_users_in_batches_run
    split
    · simp
    · split <;> simp
  · cases pf <;> rfl

/-- Claim C9, counterexample: on a query error `paginate_users` does
not return the empty list — it does not return at all (`ret = none`):
because `2-lazy_paginate.py` never imports `mysql`, evaluating its
first `except` clause raises `NameError`, which escapes to the caller
(`raised = true`).  Concretely, over the 5-row example table with page
size 2 and the store failing from offset 2 onward, the run of
`lazy_paginate` delivers the first page and then an exception reaches
the caller instead of a normal end of data. -/
theorem paginate_qerr_escapes_cex :
    (paginate_users_run PageFetch.qErr).ret ≠ some []
    ∧ (paginate_users_run PageFetch.qErr).raised = true
    ∧ (lazyPaginateRun 2 exampleTable (fun _ => false)
        (fun off => decide (1 * 2 ≤ off)) 0).2 = true
    ∧ (lazyPaginateRun 2 exampleTable (fun _ => false)
        (fun off => decide (1 * 2 ≤ off)) 0).1 = [[exRec1, exRec2]] := by
  have h := lazy_qerr_raises 2 (by omega) exampleTable 1 (by decide)
  refine ⟨by decide, rfl, ?_, ?_⟩
  · rw [h]
  · rw [h]
    show lazy_paginate 2 (exampleTable.take (1 * 2)) = [[exRec1, exRec2]]
    have ht : exampleTable.take (1 * 2) = [exRec1, exRec2] := rfl
    rw [ht, lazy_paginate, lazy_pages_step]
    rw [if_neg (by decide : ¬ List.take 2 (List.drop 0 [exRec1, exRec2]) = [])]
    rw [lazy_pages_step]
    rw [if_pos (by decide : List.take 2 (List.drop (0 + 2) [exRec1, exRec2]) = [])]
    decide

/-- Claim C9 (amended): only a failed connection makes `paginate_users`
return `[]` with nothing raised (`seed.connect_to_prodev` swallows its
own error and returns `None`), and then `lazy_paginate` terminates
normally, exactly as over the table truncated at the failing offset —
indistinguishable from end of data, with the prior pages delivered.  A
query error instead escapes as a `NameError` (the module never imports
`mysql`, so the first `except` clause itself raises): `paginate_users`
still releases its cursor and connection (`closes = opens`) but does
not return, and the exception propagates through `lazy_paginate` to
the caller after the pages fetched before the failure were
delivered. -/
theorem paginate_failure_split (p : Nat) (hp : 1 ≤ p) (t : List Record) (k : Nat)
    (hk : k * p ≤ t.length) :
    (paginate_users_run PageFetch.connFail).ret = some []
    ∧ (paginate_users_run PageFetch.connFail).raised = false
    ∧ (paginate_users_run PageFetch.qErr).ret = none
    ∧ (paginate_users_run PageFetch.qErr).raised = true
    ∧ (paginate_users_run PageFetch.qErr).closes = (paginate_users_run PageFetch.qErr).opens
    ∧ lazyPaginateRun p t (fun off => decide (k * p ≤ off)) (fun _ => false) 0 =
        (lazy_paginate p (t.take (k * p)), false)
    ∧ lazyPaginateRun p t (fun _ => false) (fun off => decide (k * p ≤ off)) 0 =
        (lazy_paginate p (t.take (k * p)), true) :=
  ⟨rfl, rfl, rfl, rfl, rfl, lazy_connfail_trunc p hp t k, lazy_qerr_raises p hp t k hk⟩

theorem paginate_failure_split_witness :
    (1 ≤ 2 ∧ 1 * 2 ≤ exampleTable.length) ∧
      ((paginate_users_run PageFetch.connFail).ret = some []
      ∧ (paginate_users_run PageFetch.connFail).raised = false
      ∧ (paginate_users_run PageFetch.qErr).ret = none
      ∧ (paginate_users_run PageFetch.qErr).raised = true
      ∧ (paginate_users_run PageFetch.qErr).closes = (paginate_users_run PageFetch.qErr).opens
      ∧ lazyPaginateRun 2 exampleTable (fun off => decide (1 * 2 ≤ off)) (fun _ => false) 0 =
          (lazy_paginate 2 (exampleTable.take (1 * 2)), false)
      ∧ lazyPaginateRun 2 exampleTable (fun _ => false) (fun off => decide (1 * 2 ≤ off)) 0 =
          (lazy_paginate 2 (exampleTable.take (1 * 2)), true)) :=
  ⟨⟨by decide, by decide⟩, paginate_failure_split 2 (by decide) exampleTable 1 (by decide)⟩

/-- Claim C10: `insert_data` never modifies an existing record (the
initial table is an unchanged prefix of the result); a CSV row whose
`user_id` already exists in the table is skipped by `INSERT IGNORE`,
leaving the table — hence the `name`, `email` and `age` of that record —
unchanged; and re-running the seed step over the same CSV rows leaves
the table contents identical. -/
theorem insert_data_idempotent (t rows : List Record) :
    (insert_data t rows).take t.length = t
    ∧ (∀ r : Record, (∃ x ∈ t, x.user_id = r.user_id) → insertIgnore t r = t)
    ∧ insert_data (insert_data t rows) rows = insert_data t rows := by
  refine ⟨insert_data_take t rows, ?_, ?_⟩
  · rintro r ⟨x, hx, hid⟩
    apply insertIgnore_conflict
    apply List.any_eq_true.mpr
    exact ⟨x, hx, by simp [dupKey, hid]⟩
  · exact insert_data_noop (insert_data t rows) rows (insert_data_conflicts t rows)

theorem insert_data_idempotent_witness :
    (∃ x ∈ exampleTable, x.user_id = exRec1v2.user_id)
    ∧ insertIgnore exampleTable exRec1v2 = exampleTable :=
  ⟨⟨exRec1, by simp [exampleTable], rfl⟩,
    ((insert_data_idempotent exampleTable [exRec1v2]).2.1 exRec1v2
      ⟨exRec1, by simp [exampleTable], rfl⟩)⟩

end PyGen
